import Mathlib

/-
  Verification development for the SelfAssessment repository.

  The definitions below are shallow embeddings of the JavaScript / TypeScript
  sources:
    - backend/app/core/course/testmodels/abstract.js   (SpeedTest, occurrence variant)
    - the second SpeedTest implementation (substring variant)
    - backend/app/core/user/result.controller.js       (calculate, generateValidationCode,
                                                        lock, update)
    - SelfAssessment/src/app/shared/services/local-storage.service.ts
                                                       (createJournalStructure,
                                                        prepareJournalLogForSaving,
                                                        extractSavedJournalLog)

  JavaScript strings are modelled as `List Char`, JS numbers occurring in
  journal logs as `Int` (all values exercised are integral), and JS runtime
  type errors / non-termination as `Option.none`.  While-loops that can
  diverge in JS are given explicit fuel; exhausting the fuel yields `none`.
-/

namespace SelfAssessment

/-- JS strings are lists of characters. -/
abbrev Str := List Char

/-- A dynamically typed JavaScript value, as found in journal logs. -/
inductive JSVal where
  | bool : Bool → JSVal
  | num : Int → JSVal
  | str : Str → JSVal
  | arr : List JSVal → JSVal

/-! ## JS string primitives -/

/-- Does `s` start with the pattern `pat`? (`String.prototype.startsWith`). -/
def strStartsWith : Str → Str → Bool
  | [], _ => true
  | _ :: _, [] => false
  | p :: ps, c :: cs => (p == c) && strStartsWith ps cs

/-- Index of the first occurrence of `pat` in `s`, if any
(`String.prototype.indexOf`, and `String.prototype.search` for patterns
without regex metacharacters; every pattern used by the sources is literal). -/
def firstIndexOf (pat : Str) : Str → Option Nat
  | [] => if strStartsWith pat [] then some 0 else none
  | c :: cs =>
    if strStartsWith pat (c :: cs) then some 0
    else (firstIndexOf pat cs).map (· + 1)

/-- `String.prototype.includes`. -/
def strIncludes (pat s : Str) : Bool := (firstIndexOf pat s).isSome

/-- Replace the first occurrence of `pat` in `s` by `rep`
(`String.prototype.replace` with a string/function replacement). -/
def replaceFirst (pat rep s : Str) : Str :=
  match firstIndexOf pat s with
  | none => s
  | some i => s.take i ++ rep ++ s.drop (i + pat.length)

/-- `String.prototype.substring(a, b)`: clamps both arguments into
`[0, length]` and swaps them when `a > b`. -/
def jsSubstring (s : Str) (a b : Int) : Str :=
  let len : Int := s.length
  let a' := min (max a 0) len
  let b' := min (max b 0) len
  let lo := (min a' b').toNat
  let hi := (max a' b').toNat
  (s.take hi).drop lo

/-- `String.prototype.substr(start, len)` (start is a valid index in all
uses by the sources). -/
def jsSubstr (s : Str) (start len : Nat) : Str := (s.drop start).take len

/-- Parse a non-empty run of decimal digits; `none` models `NaN`. -/
def parseDecDigits : Str → Option Nat
  | s =>
    let digits := s.takeWhile (fun c => ('0' ≤ c) && (c ≤ '9'))
    if digits.isEmpty then none
    else some (digits.foldl (fun acc c => acc * 10 + (c.toNat - '0'.toNat)) 0)

/-- `parseInt(s, 10)`: skip leading spaces, optional sign, then leading
decimal digits; `none` models `NaN` (also for a missing argument). -/
def jsParseInt : Option Str → Option Int
  | none => none
  | some s =>
    let s := s.dropWhile (· == ' ')
    match s with
    | '-' :: rest => (parseDecDigits rest).map (fun n => -(n : Int))
    | '+' :: rest => (parseDecDigits rest).map (fun n => (n : Int))
    | rest => (parseDecDigits rest).map (fun n => (n : Int))

/-! ## Test options and the two SpeedTest scorers

A single entry of a test config's `options[]` array.  `correct` is absent for
some categories; for SPEED tests the schema forces it to be a string and (in
the occurrence variant) forces `index` to be a string. -/

structure TestOption where
  text : Str := []
  correct : Option JSVal := none
  index : Option Str := none

/-- The string value of `option.correct` as used by the SPEED scorers.  The
schemas force a string; a non-string value would be coerced by JS, which the
sources never exercise (`undefined` stringifies to "undefined"). -/
def optCorrectStr (o : TestOption) : Str :=
  match o.correct with
  | some (.str s) => s
  | _ => ("undefined".toList)

/-- Result record `{score, correct, wrong}` returned by every scorer. -/
structure ScoreResult where
  score : Nat
  correct : List Nat
  wrong : List Nat
deriving DecidableEq

/-- `maxScore` getter of the occurrence-variant SpeedTest: counts the options
carrying a `correct` attribute. -/
def speedMaxScore (options : List TestOption) : Nat :=
  options.foldl (fun sc opt => if opt.correct.isSome then sc + 1 else sc) 0

/-- `maxScore` getter of the substring-variant SpeedTest: the identical loop,
counting the options carrying a `correct` attribute. -/
def speedMaxScoreSub (options : List TestOption) : Nat :=
  options.foldl (fun sc opt => if opt.correct.isSome then sc + 1 else sc) 0

/-- The occurrence-collecting while-loop of the occurrence-variant
`SpeedTest.calculateResult`: repeatedly search `searchString` for
`correctOption`, slice off everything up to and including the match, and
record `{start: index, end: index + length}` — the recorded offsets are
relative to the current (sliced) `searchString`, exactly as in the source.
An empty `correctOption` makes the JS loop spin forever; fuel exhaustion
models that as `none`. -/
def findOccurrences (correctOption : Str) : Nat → Str → Option (List (Nat × Nat))
  | 0, s => if (firstIndexOf correctOption s).isSome then none else some []
  | fuel + 1, s =>
    match firstIndexOf correctOption s with
    | none => some []
    | some idx =>
      (findOccurrences correctOption fuel (s.drop (idx + correctOption.length))).map
        (fun rest => (idx, idx + correctOption.length) :: rest)

/-- The `selectedOccurence` scan: iterate over the occurrences and remember
the index of the last one fully contained in the user's selection span. -/
def selectedOccurrence : List (Nat × Nat) → Int → Int → Int → Int → Int
  | [], _, _, _, acc => acc
  | (a, b) :: rest, st, en, i, acc =>
    selectedOccurrence rest st en (i + 1)
      (if st ≤ (a : Int) ∧ en ≥ (b : Int) then i else acc)

/-- One step accumulator helper for scorers. -/
def pushCorrect (r : ScoreResult) (i : Nat) : ScoreResult :=
  { r with score := r.score + 1, correct := r.correct ++ [i] }

/-- One step accumulator helper for scorers. -/
def pushWrong (r : ScoreResult) (i : Nat) : ScoreResult :=
  { r with wrong := r.wrong ++ [i] }

/-- Loop body of the occurrence-variant `SpeedTest.calculateResult`
(backend testmodels).  `none` models a JS `TypeError` (log longer than
`options[]`) or the non-terminating occurrence scan. -/
def speedCalcGo (options : List TestOption) :
    List JSVal → Nat → ScoreResult → Option ScoreResult
  | [], _, acc => some acc
  | v :: rest, i, acc =>
    match options.get? i with
    | none => none
    | some opt =>
      let correctOption := optCorrectStr opt
      let correctOptionIndex := jsParseInt opt.index
      match v with
      | .arr elems =>
        match correctOptionIndex with
        | none => speedCalcGo options rest (i + 1) acc
        | some cIdx =>
          match elems.get? 0, elems.get? 1 with
          | some (.num st), some (.num en) =>
            if st = -1 ∨ en = -1 then speedCalcGo options rest (i + 1) acc
            else
              let selectedText := jsSubstring opt.text st en
              match findOccurrences correctOption (opt.text.length + 1) opt.text with
              | none => none
              | some occs =>
                let sel := selectedOccurrence occs st en 0 (-1)
                if strIncludes correctOption selectedText ∧ sel = cIdx then
                  speedCalcGo options rest (i + 1) (pushCorrect acc i)
                else
                  speedCalcGo options rest (i + 1) (pushWrong acc i)
          | _, _ => speedCalcGo options rest (i + 1) acc
      | _ => speedCalcGo options rest (i + 1) acc

/-- `SpeedTest.calculateResult` of the occurrence/index variant
(`backend/app/core/course/testmodels`, the class built on `BaseTest`). -/
def speedCalculateResult (options : List TestOption) (log : List JSVal) :
    Option ScoreResult :=
  speedCalcGo options log 0 ⟨0, [], []⟩

/-- Loop body of the substring-variant `SpeedTest.calculateResult` (the class
built directly on `AbstractTest`): a log entry is the selected text itself;
award iff it contains `correct`, record wrong iff it is non-empty. -/
def speedSubGo (options : List TestOption) :
    List JSVal → Nat → ScoreResult → Option ScoreResult
  | [], _, acc => some acc
  | v :: rest, i, acc =>
    match options.get? i with
    | none => none
    | some opt =>
      let correctOption := optCorrectStr opt
      match v with
      | .str s =>
        if strIncludes correctOption s then
          speedSubGo options rest (i + 1) (pushCorrect acc i)
        else if s.length > 0 then
          speedSubGo options rest (i + 1) (pushWrong acc i)
        else
          speedSubGo options rest (i + 1) acc
      | _ => speedSubGo options rest (i + 1) acc

/-- `SpeedTest.calculateResult` of the substring-inclusion variant. -/
def speedCalculateResultSub (options : List TestOption) (log : List JSVal) :
    Option ScoreResult :=
  speedSubGo options log 0 ⟨0, [], []⟩

/-- The single option of the C1 scenario: text `"ab:cd:ef"`, `correct = ":"`,
`index = "1"` (the second colon, at character offsets 5..6). -/
def speedOptC1 : TestOption :=
  { text := ("ab:cd:ef".toList)
    correct := some (.str (":".toList))
    index := some ("1".toList) }

/-! ## generateValidationCode (result.controller.js)

Randomness: every `Math.floor(Math.random() * n)` is modelled as `rand k % n`
where `rand : Nat → Nat` is the injected random source and `k` a counter
incremented on every draw.  Loops that can spin forever in JS (a `%` token in
final position, a modulo that never divides a drawn digit) carry fuel;
running out of fuel yields `none`. -/

/-- The replacement-character alphabet of `generateValidationCode`. -/
def alphabetStr : Str := "ABCDEFGHIJKLMNOPQRSTUVWXYZ".toList

/-- The replacement string for one replaceable token, given one raw random
draw `r` (a digit for `[0-9]`, one alphabet character for `[A-Z]`, its
lowercase for `[a-z]`; unknown tokens keep the initial empty replacement). -/
def tokenReplacement (token : Str) (r : Nat) : Str :=
  if token = ("[0-9]".toList) then [Nat.digitChar (r % 10)]
  else if token = ("[A-Z]".toList) then (alphabetStr.drop (r % 26)).take 1
  else if token = ("[a-z]".toList) then ((alphabetStr.drop (r % 26)).take 1).map Char.toLower
  else []

/-- `while (code.includes(token)) code = code.replace(token, replacement)` —
the token-replacement loop of `generateValidationCode`, one fresh draw per
iteration. -/
def tokenReplaceLoop (rand : Nat → Nat) (token : Str) :
    Nat → Str → Nat → Option (Str × Nat)
  | 0, code, k => if strIncludes token code then none else some (code, k)
  | fuel + 1, code, k =>
    if strIncludes token code then
      tokenReplaceLoop rand token fuel
        (replaceFirst token (tokenReplacement token (rand k)) code) (k + 1)
    else some (code, k)

/-- JS `ToNumber` on the extracted modulo string, restricted to the shapes the
sources produce: a non-empty all-digit string is its value, anything else is
`NaN` (`none`). -/
def jsToNumber (s : Str) : Option Nat :=
  if s ≠ [] ∧ s.all (fun c => ('0' ≤ c) && (c ≤ '9')) then
    some (s.foldl (fun acc c => acc * 10 + (c.toNat - '0'.toNat)) 0)
  else none

/-- The `do { number = ... } while (number % modulo !== 0)` reroll: draw
digits until one is divisible by the modulo.  A modulo of `0` or `NaN` makes
`number % modulo` `NaN`, so the JS loop never exits (fuel runs out). -/
def rollModulo (rand : Nat → Nat) (m : Option Nat) : Nat → Nat → Option (Nat × Nat)
  | 0, _ => none
  | fuel + 1, k =>
    let number := rand k % 10
    match m with
    | some m' =>
      if m' ≠ 0 ∧ number % m' = 0 then some (number, k + 1)
      else rollModulo rand m fuel (k + 1)
    | none => rollModulo rand m fuel (k + 1)

/-- The `%`-token while-loop: locate the first `%`; when it is not the last
character, take `modulo = code.substr(i+1, i+2)`, reroll a digit divisible by
it, and replace the substring `%` + modulo by that digit.  A `%` in final
position leaves the code unchanged, so the JS loop spins forever. -/
def percentLoop (rand : Nat → Nat) : Nat → Str → Nat → Option (Str × Nat)
  | 0, code, k => if strIncludes (['%']) code then none else some (code, k)
  | fuel + 1, code, k =>
    if strIncludes (['%']) code then
      let tokenIndex := (firstIndexOf (['%']) code).getD 0
      if tokenIndex + 1 < code.length then
        let modulo := jsSubstr code (tokenIndex + 1) (tokenIndex + 2)
        match rollModulo rand (jsToNumber modulo) fuel k with
        | none => none
        | some (number, k') =>
          percentLoop rand fuel (replaceFirst ('%' :: modulo) [Nat.digitChar number] code) k'
      else percentLoop rand fuel code k
    else some (code, k)

/-- The `(` / `)` while-loops: remove every occurrence (the TODO branches of
the source replace the token by the empty string). -/
def parenLoop (ch : Char) : Nat → Str → Option Str
  | 0, code => if strIncludes ([ch]) code then none else some code
  | fuel + 1, code =>
    if strIncludes ([ch]) code then parenLoop ch fuel (replaceFirst ([ch]) [] code)
    else some code

/-- `generateValidationCode(schema)` from result.controller.js: replace the
`[0-9]`, `[A-Z]`, `[a-z]` tokens (in that order), then handle the meta tokens
`%`, `(`, `)` (in that order). -/
def generateValidationCode (schema : Str) (rand : Nat → Nat) (fuel : Nat) : Option Str :=
  match tokenReplaceLoop rand ("[0-9]".toList) fuel schema 0 with
  | none => none
  | some (c1, k1) =>
    match tokenReplaceLoop rand ("[A-Z]".toList) fuel c1 k1 with
    | none => none
    | some (c2, k2) =>
      match tokenReplaceLoop rand ("[a-z]".toList) fuel c2 k2 with
      | none => none
      | some (c3, k3) =>
        match percentLoop rand fuel c3 k3 with
        | none => none
        | some (c4, _) =>
          match parenLoop '(' fuel c4 with
          | none => none
          | some c5 => parenLoop ')' fuel c5

/-- The template of the C8 scenario. -/
def templateC8 : Str := "AA-[0-9][0-9]%2".toList

/-! ## The backend data model and `calculate` (result.controller.js) -/

/-- A single test definition as consumed by `calculate` (fields the function
never reads, such as `task` or `seconds`, are omitted). -/
structure TestConfig where
  id : Nat
  category : Str
  evaluated : Bool
  options : List TestOption

/-- The course config as consumed by `calculate` / `lock`. -/
structure BackendConfig where
  tests : List TestConfig
  validationSchema : Str := []

/-- One `{key, val}` pair of a journal-log set (journal.model.js). -/
structure LogMapEntry where
  key : Nat
  val : JSVal

/-- One set of the journal log. -/
structure LogSet where
  maps : List LogMapEntry

/-- `journal.log`. -/
structure JournalLogB where
  sets : List LogSet

/-- One set of `journal.structure`: the set id and the answered test ids. -/
structure StructSet where
  set : Nat
  tests : List Nat

/-- `journal.structure` (the backend persisted shape: course name, language
and the minimal sets). -/
structure JournalStructureB where
  course : Str
  language : Str
  sets : List StructSet

/-- A backend journal; the JS field `structure` is a Lean keyword, so it is
called `struct` here. -/
structure JournalB where
  log : JournalLogB
  struct : JournalStructureB

/-- The per-test result record pushed by `calculate`. -/
structure TestResultB where
  id : Nat
  score : Nat
  maxScore : Nat
  correctOptions : List Nat
  wrongOptions : List Nat
deriving DecidableEq

/-- The test-config lookup of `calculate`: first entry of `config.tests` with
the wanted id (the source breaks at the first match). -/
def findTestConfig (config : BackendConfig) (id : Nat) : Option TestConfig :=
  config.tests.find? (fun t => t.id == id)

/-- The test-log lookup of `calculate`: the source breaks out of the inner
loop on a key match but keeps iterating the outer set loop, so the first
matching map of the last set containing the key wins. -/
def findTestLog (logSets : List LogSet) (id : Nat) : Option JSVal :=
  logSets.foldl
    (fun acc s =>
      match s.maps.find? (fun m => m.key == id) with
      | some m => some m.val
      | none => acc)
    none

/-- `obj[k] = v` on a JS object modelled as an association list: overwrite
the value of an existing key in place, append a fresh key. -/
def objSet : List (Nat × α) → Nat → α → List (Nat × α)
  | [], k, v => [(k, v)]
  | (k', v') :: rest, k, v =>
    if k' = k then (k', v) :: rest else (k', v') :: objSet rest k v

/-- Property read `obj[k]` on a JS object / `Map.prototype.get`. -/
def objGet (obj : List (Nat × α)) (k : Nat) : Option α :=
  (obj.find? (fun e => e.1 == k)).map (fun e => e.2)

/-- First phase of `calculate`, inner loop: gather config and log for the
test ids of one structure set, aborting the whole calculation (`none`) when a
test config is missing or when an evaluated test has no log entry. -/
def collectSetTests (config : BackendConfig) (logSets : List LogSet) :
    List Nat → List (Nat × (TestConfig × JSVal)) → Option (List (Nat × (TestConfig × JSVal)))
  | [], acc => some acc
  | id :: rest, acc =>
    match findTestConfig config id with
    | none => none
    | some tc =>
      if tc.evaluated = false then collectSetTests config logSets rest acc
      else
        match findTestLog logSets id with
        | none => none
        | some lv => collectSetTests config logSets rest (objSet acc id (tc, lv))

/-- First phase of `calculate`, outer loop over the structure sets. -/
def collectTestsData (config : BackendConfig) (logSets : List LogSet) :
    List StructSet → List (Nat × (TestConfig × JSVal)) → Option (List (Nat × (TestConfig × JSVal)))
  | [], acc => some acc
  | s :: rest, acc =>
    match collectSetTests config logSets s.tests acc with
    | none => none
    | some acc' => collectTestsData config logSets rest acc'

/-- The closed set of category-keyed testmodels reachable from the Factory. -/
inductive TestModelInstance where
  | choice (cfg : TestConfig)
  | multipleOptions (cfg : TestConfig)
  | speed (cfg : TestConfig)

/-- Modelled from the spec: `courseTestModels.Factory.create` — the factory
module `core/course/testmodels/index.js` is not among the sources, only its
caller.  Per §4.3/§9 it is a string-keyed lookup over the closed category
set; an unknown category yields no instance and `calculate` skips the test. -/
def factoryCreate (cfg : TestConfig) : Option TestModelInstance :=
  if cfg.category = ("checkbox".toList) ∨ cfg.category = ("radio-buttons".toList)
      ∨ cfg.category = ("multiple-choice".toList) then some (.choice cfg)
  else if cfg.category = ("multiple-options".toList) then some (.multipleOptions cfg)
  else if cfg.category = ("speed".toList) then some (.speed cfg)
  else none

/-- The boolean value of `option.correct` for choice-based categories. -/
def optCorrectBool (o : TestOption) : Bool :=
  match o.correct with
  | some (.bool b) => b
  | _ => false

/-- Modelled from the spec: choice-based scoring (§4.3) — the checkbox,
radio-buttons and multiple-choice testmodels are not among the sources.  The
log entry is one boolean per option; a selected correct option increments the
score and is recorded in `correct[]`, a selected incorrect option is recorded
in `wrong[]` (cf. §8: options `[{correct:true},{correct:false}]`, log
`[true,false]` → score 1, correct=[0], wrong=[]). -/
def choiceCalcGo (options : List TestOption) :
    List JSVal → Nat → ScoreResult → ScoreResult
  | [], _, acc => acc
  | v :: rest, i, acc =>
    match v, options.get? i with
    | .bool true, some o =>
      if optCorrectBool o then choiceCalcGo options rest (i + 1) (pushCorrect acc i)
      else choiceCalcGo options rest (i + 1) (pushWrong acc i)
    | _, _ => choiceCalcGo options rest (i + 1) acc

/-- Modelled from the spec: MULTIPLE_OPTIONS scoring (§4.3) — the testmodel
is not among the sources.  `logEntry[i]` names the user's chosen column and
is compared with `option.correct`; match → `correct[]`/score++, mismatch →
`wrong[]`. -/
def moCalcGo (options : List TestOption) :
    List JSVal → Nat → ScoreResult → ScoreResult
  | [], _, acc => acc
  | v :: rest, i, acc =>
    match v, options.get? i with
    | .str s, some { correct := some (.str c), .. } =>
      if s = c then moCalcGo options rest (i + 1) (pushCorrect acc i)
      else moCalcGo options rest (i + 1) (pushWrong acc i)
    | _, _ => moCalcGo options rest (i + 1) acc

/-- `maxScore` of an instance: for every category, the count of options
carrying a `correct` value (§4.3 common contract; the speed testmodel's own
getter is `speedMaxScore`). -/
def instanceMaxScore : TestModelInstance → Nat
  | .choice cfg => speedMaxScore cfg.options
  | .multipleOptions cfg => speedMaxScore cfg.options
  | .speed cfg => speedMaxScore cfg.options

/-- `instance.calculateResult(test.log)`.  A non-array log value has no
numeric `length` in JS, so the scoring loops run zero iterations and return
the empty result; a string value iterates its characters (each a one-element
string). -/
def instanceCalculate : TestModelInstance → JSVal → Option ScoreResult
  | .choice cfg, .arr l => some (choiceCalcGo cfg.options l 0 ⟨0, [], []⟩)
  | .choice _, _ => some ⟨0, [], []⟩
  | .multipleOptions cfg, .arr l => some (moCalcGo cfg.options l 0 ⟨0, [], []⟩)
  | .multipleOptions _, _ => some ⟨0, [], []⟩
  | .speed cfg, .arr l => speedCalculateResult cfg.options l
  | .speed cfg, .str s => speedCalculateResult cfg.options (s.map (fun c => .str [c]))
  | .speed _, _ => some ⟨0, [], []⟩

/-- Second phase of `calculate`: `for (const key in testsData)` — JS iterates
the integer-like keys of an object in ascending numeric order, so the loop
runs over the sorted key list.  A scorer crash (`none`) aborts `calculate`
like the JS exception would. -/
def resultsLoop (data : List (Nat × (TestConfig × JSVal))) :
    List Nat → Option (List TestResultB)
  | [] => some []
  | k :: rest =>
    match objGet data k with
    | none => resultsLoop data rest
    | some (tc, lv) =>
      match factoryCreate tc with
      | none => resultsLoop data rest
      | some inst =>
        match instanceCalculate inst lv with
        | none => none
        | some r =>
          (resultsLoop data rest).map
            (fun tl =>
              { id := k, score := r.score, maxScore := instanceMaxScore inst,
                correctOptions := r.correct, wrongOptions := r.wrong } :: tl)

/-- `calculate(config, journal)` of result.controller.js. -/
def calculate (config : BackendConfig) (journal : JournalB) : Option (List TestResultB) :=
  match collectTestsData config journal.log.sets journal.struct.sets [] with
  | none => none
  | some data => resultsLoop data (List.insertionSort (· ≤ ·) (data.map Prod.fst))

/-! ## The result store, `lock` and `update` (result.controller.js)

The mongo collections are modelled as in-memory lists; `findOne` returns the
first match, `updateOne` updates the first match and only the named field.
Storage failures are out of scope (§6: surfaced unchanged). -/

/-- `user.result`. -/
structure StoredResult where
  tests : List TestResultB
  validationCode : Option Str

/-- A user document. -/
structure DBUser where
  pin : Nat
  journal : JournalB
  result : StoredResult

/-- One language-tagged config of a course document. -/
structure LangConfig where
  language : Str
  config : BackendConfig

/-- A course document. -/
structure DBCourse where
  name : Str
  configs : List LangConfig

/-- The database state visible to `lock` and `update`. -/
structure Store where
  users : List DBUser
  courses : List DBCourse

/-- `db.User.findOne({pin})`. -/
def findUser (s : Store) (pin : Nat) : Option DBUser :=
  s.users.find? (fun u => u.pin == pin)

/-- `db.Course.findOne({name})`. -/
def findCourse (s : Store) (name : Str) : Option DBCourse :=
  s.courses.find? (fun c => c.name == name)

/-- The config-by-language loop of `lock`: breaks at the first match. -/
def findConfigBreak (configs : List LangConfig) (lang : Str) : Option BackendConfig :=
  (configs.find? (fun lc => lc.language == lang)).map (fun lc => lc.config)

/-- The config-by-language loop of `update`: no break, so the last match
wins. -/
def findConfigNoBreak (configs : List LangConfig) (lang : Str) : Option BackendConfig :=
  configs.foldl (fun acc lc => if lc.language == lang then some lc.config else acc) none

/-- JS truthiness of `user.result.validationCode` (an empty string is
falsy). -/
def codeTruthy : Option Str → Bool
  | none => false
  | some c => !c.isEmpty

/-- `db.User.updateOne({pin}, {'result.validationCode': code})`: set only the
validation code of the first user with this pin. -/
def setUserCode : List DBUser → Nat → Str → List DBUser
  | [], _, _ => []
  | u :: rest, pin, code =>
    if u.pin == pin then
      { u with result := { u.result with validationCode := some code } } :: rest
    else u :: setUserCode rest pin code

/-- `db.User.updateOne({pin}, {'result.tests': tests})`: set only the stored
tests of the first user with this pin. -/
def setUserTests : List DBUser → Nat → List TestResultB → List DBUser
  | [], _, _ => []
  | u :: rest, pin, tests =>
    if u.pin == pin then
      { u with result := { u.result with tests := tests } } :: rest
    else u :: setUserTests rest pin tests

/-- Outcome of a `lock` request (the HTTP layer is out of scope; `hung`
models the request never completing because `generateValidationCode` spins
forever). -/
inductive LockResp where
  | ok (code : Str)
  | notFound
  | hung
deriving DecidableEq

/-- The `lock` controller: find user, course and language config, return an
already-existing (truthy) validation code unchanged, otherwise generate one
from the course's `validationSchema` and persist it. -/
def lock (s : Store) (pin : Nat) (rand : Nat → Nat) (fuel : Nat) : Store × LockResp :=
  match findUser s pin with
  | none => (s, .notFound)
  | some user =>
    match findCourse s user.journal.struct.course with
    | none => (s, .notFound)
    | some course =>
      match findConfigBreak course.configs user.journal.struct.language with
      | none => (s, .notFound)
      | some cfg =>
        if codeTruthy user.result.validationCode then
          (s, .ok (user.result.validationCode.getD []))
        else
          match generateValidationCode cfg.validationSchema rand fuel with
          | none => (s, .hung)
          | some code => ({ s with users := setUserCode s.users pin code }, .ok code)

/-- Outcome of an `update` request: `okTests` is the HTTP-200 answer carrying
the frozen stored tests (locked pin), `okSaved` the HTTP-200 answer after
recomputing and persisting. -/
inductive UpdateResp where
  | okTests (tests : List TestResultB)
  | okSaved
  | notFound
deriving DecidableEq

/-- The `update` controller: a pin whose result carries a (truthy) validation
code is answered with the stored tests and nothing is written; otherwise the
results are recalculated and persisted. -/
def update (s : Store) (pin : Nat) : Store × UpdateResp :=
  match findUser s pin with
  | none => (s, .notFound)
  | some user =>
    if codeTruthy user.result.validationCode then (s, .okTests user.result.tests)
    else
      match findCourse s user.journal.struct.course with
      | none => (s, .notFound)
      | some course =>
        match findConfigNoBreak course.configs user.journal.struct.language with
        | none => (s, .notFound)
        | some cfg =>
          match calculate cfg user.journal with
          | none => (s, .notFound)
          | some results => ({ s with users := setUserTests s.users pin results }, .okSaved)

/-! ## The frontend structure builder (local-storage.service.ts)

JS `Map<number, T>` objects are modelled as association lists in insertion
order (`objSet` / `objGet` implement `set` / `get`).  `Math.floor(Math.random()
* len)` is `rand k % len` (and `0` when `len = 0`, as in JS). -/

/-- A frontend single test; only the identity matters to the structure
builder, the remaining payload is represented by `category`. -/
structure FTest where
  id : Nat
  category : Str := []
deriving DecidableEq

/-- A frontend info page. -/
structure FInfopage where
  id : Nat
  text : Str := []
  belongs : List Nat := []
deriving DecidableEq

/-- A frontend test group. -/
structure FGroup where
  id : Nat
  tests : List Nat
  select : Option Nat := none

/-- The evaluation texts of a config set. -/
structure EvaluationTexts where
  scoreIndependent : Str := []
  scoreDependent : List (Nat × Str) := []
deriving DecidableEq

/-- A config-file test set. -/
structure FConfigSet where
  id : Nat
  elements : List Nat
  evaluationTexts : EvaluationTexts := {}

/-- The course-specific config file consumed by `createJournalStructure`. -/
structure ConfigFile where
  tests : List FTest := []
  testgroups : List FGroup := []
  sets : List FConfigSet := []
  infopages : List FInfopage := []

/-- A resolved set element: a single test or an info page (the `elementType`
tag of the source). -/
inductive SetElement where
  | test (t : FTest)
  | infopage (p : FInfopage)
deriving DecidableEq

/-- `element.id` of a resolved set element. -/
def SetElement.elemId : SetElement → Nat
  | .test t => t.id
  | .infopage p => p.id

/-- A resolved test set of the journal structure. -/
structure FTestSet where
  id : Nat
  elements : List SetElement
  scoreIndepentText : Str
  scoreDependentTexts : List (Nat × Str)
deriving DecidableEq

/-- The resolved journal structure. -/
structure FJournalStructure where
  sets : List FTestSet
deriving DecidableEq

/-- One set of the persisted minimal structure. -/
structure TestSetMinimal where
  set : Nat
  tests : List Nat

/-- The persisted minimal journal structure handed back on resume. -/
structure JournalStructureMinimal where
  course : Str := []
  language : Str := []
  sets : List TestSetMinimal

/-- The `allSingleTests` map: every config test keyed by its id, tagged as a
TEST element. -/
def allSingleTestsOf (course : ConfigFile) : List (Nat × SetElement) :=
  course.tests.foldl (fun m t => objSet m t.id (SetElement.test t)) []

/-- The `allInfopages` map: every info page under each id it belongs to. -/
def allInfopagesOf (course : ConfigFile) : List (Nat × SetElement) :=
  course.infopages.foldl
    (fun m p => p.belongs.foldl (fun m' b => objSet m' b (SetElement.infopage p)) m) []

/-- `journalStrucRawTests`: all test ids recorded in the minimal structure,
flattened in order. -/
def rawTestsOf (m : JournalStructureMinimal) : List Nat :=
  m.sets.foldl (fun acc s => acc ++ s.tests) []

/-- The random-selection while-loop of the fresh mode: draw indices into
`group.tests` until `select` distinct ones are collected; a draw already in
`indices` is discarded and redrawn.  When `select` exceeds the number of
distinct indices the JS loop never exits, which fuel exhaustion models as
`none`.  Returns the collected indices and the advanced draw counter. -/
def selectLoop (rand : Nat → Nat) (len sel : Nat) :
    Nat → Nat → List Nat → Option (List Nat × Nat)
  | 0, k, indices => if indices.length < sel then none else some (indices, k)
  | fuel + 1, k, indices =>
    if indices.length < sel then
      let index := if len = 0 then 0 else rand k % len
      if indices.contains index then selectLoop rand len sel fuel (k + 1) indices
      else selectLoop rand len sel fuel (k + 1) (indices ++ [index])
    else some (indices, k)

/-- The per-group `temp` list.  Resume mode keeps the `group.tests` ids that
occur in the minimal structure; fresh mode with a truthy `select` (note:
`select: 0` is falsy in JS and falls through to the full list) draws random
indices; otherwise the whole group is used.  Each chosen id is resolved
through `allSingleTests.get` (a JS `undefined` for an unknown id is
`none`).  The source pushes into `temp` inside the draw loop; since
`group.tests` is constant this equals mapping the drawn indices afterwards. -/
def groupTemp (allST : List (Nat × SetElement)) (journalStrucRawTests : List Nat)
    (isResume : Bool) (g : FGroup) (rand : Nat → Nat) (fuel k : Nat) :
    Option (List (Option SetElement) × Nat) :=
  if isResume then
    some ((g.tests.filter (fun id => journalStrucRawTests.contains id)).map
      (fun id => objGet allST id), k)
  else if (g.select.getD 0) ≠ 0 then
    match selectLoop rand g.tests.length (g.select.getD 0) fuel k [] with
    | none => none
    | some (indices, k') =>
      some (indices.map
        (fun ix =>
          match g.tests.get? ix with
          | some id => objGet allST id
          | none => none), k')
  else
    some (g.tests.map (fun id => objGet allST id), k)

/-- The `testsInTestgroup` map: `temp` for every group, threaded through the
global draw counter. -/
def buildGroups (allST : List (Nat × SetElement)) (rawT : List Nat) (isResume : Bool)
    (rand : Nat → Nat) (fuel : Nat) :
    List FGroup → Nat → List (Nat × List (Option SetElement)) →
    Option (List (Nat × List (Option SetElement)) × Nat)
  | [], k, m => some (m, k)
  | g :: rest, k, m =>
    match groupTemp allST rawT isResume g rand fuel k with
    | none => none
    | some (temp, k') => buildGroups allST rawT isResume rand fuel rest k' (objSet m g.id temp)

/-- Expansion of one group's `temp` inside a set: each test, preceded by its
info page when one belongs to it.  A JS `undefined` inside `temp` (unknown
test id) crashes on the `test.id` access, modelled as `none`. -/
def groupElems (allIP : List (Nat × SetElement)) :
    List (Option SetElement) → Option (List SetElement)
  | [] => some []
  | none :: _ => none
  | some t :: rest =>
    let ip := match objGet allIP t.elemId with
      | some p => [p]
      | none => []
    (groupElems allIP rest).map (fun r => ip ++ [t] ++ r)

/-- The element loop of one config set: an element id resolves to its info
page (if any), then to a single test or to a group expansion.  An id that is
neither a test nor a group makes the source call `.forEach` on `undefined`,
modelled as `none`. -/
def buildSetElements (allIP allST : List (Nat × SetElement))
    (tg : List (Nat × List (Option SetElement))) :
    List Nat → Option (List SetElement)
  | [] => some []
  | el :: rest =>
    let ip := match objGet allIP el with
      | some p => [p]
      | none => []
    match objGet allST el with
    | some t =>
      (buildSetElements allIP allST tg rest).map (fun r => ip ++ [t] ++ r)
    | none =>
      match objGet tg el with
      | none => none
      | some temp =>
        match groupElems allIP temp with
        | none => none
        | some ge => (buildSetElements allIP allST tg rest).map (fun r => ip ++ ge ++ r)

/-- The set loop of `createJournalStructure`. -/
def buildSets (allIP allST : List (Nat × SetElement))
    (tg : List (Nat × List (Option SetElement))) :
    List FConfigSet → Option (List FTestSet)
  | [] => some []
  | rawSet :: rest =>
    match buildSetElements allIP allST tg rawSet.elements with
    | none => none
    | some elems =>
      (buildSets allIP allST tg rest).map
        (fun r =>
          { id := rawSet.id, elements := elems,
            scoreIndepentText := rawSet.evaluationTexts.scoreIndependent,
            scoreDependentTexts := rawSet.evaluationTexts.scoreDependent } :: r)

/-- `createJournalStructure(course, journalStrucMin?)` of
local-storage.service.ts, parameterized by the random source and fuel for the
fresh-mode draw loops. -/
def createJournalStructure (course : ConfigFile)
    (journalStrucMin : Option JournalStructureMinimal)
    (rand : Nat → Nat) (fuel : Nat) : Option FJournalStructure :=
  let allSingleTests := allSingleTestsOf course
  let allInfopages := allInfopagesOf course
  let journalStrucRawTests := match journalStrucMin with
    | some m => rawTestsOf m
    | none => []
  match buildGroups allSingleTests journalStrucRawTests journalStrucMin.isSome rand fuel
      course.testgroups 0 [] with
  | none => none
  | some (tg, _) =>
    (buildSets allInfopages allSingleTests tg course.sets).map (fun sets => ⟨sets⟩)

/-! ## The journal-log wire format (local-storage.service.ts) -/

/-- The in-memory frontend journal log: per set one `Map<number, any[]>`,
modelled as an association list in insertion order. -/
structure FJournalLog where
  sets : List (List (Nat × JSVal))

/-- `prepareJournalLogForSaving`: each set map becomes a `{maps: [{key,
val}]}` object, entries in iteration (= insertion) order — exactly the
backend's persisted `journal.log` shape. -/
def prepareJournalLogForSaving (journalLog : FJournalLog) : JournalLogB :=
  ⟨journalLog.sets.map (fun m => ⟨m.map (fun e => ⟨e.1, e.2⟩)⟩)⟩

/-- `extractSavedJournalLog`: rebuild each set map with `Map.prototype.set`
over the saved `{key, val}` pairs in order. -/
def extractSavedJournalLog (protoObj : JournalLogB) : FJournalLog :=
  ⟨protoObj.sets.map (fun s => s.maps.foldl (fun acc e => objSet acc e.key e.val) [])⟩

/-! ## Concrete instances used by witnesses and counterexamples -/

/-- The two-uppercase-dash-two-digits format asserted by the spec for the
template `"AA-[0-9][0-9]%2"`: length five, the trailing two digits read as a
two-digit number divisible by 2. -/
def claimC8Format (s : Str) : Bool :=
  match s with
  | [a, b, c, d, e] =>
    a.isUpper && b.isUpper && (c == '-') && d.isDigit && e.isDigit &&
      ((d.toNat - '0'.toNat) * 10 + (e.toNat - '0'.toNat)) % 2 == 0
  | _ => false

/-- A config with no tests at all (C2 witness). -/
def cfgW2 : BackendConfig := { tests := [] }

/-- A journal whose structure references test id 5, which `cfgW2` does not
declare (C2 witness). -/
def journalW2 : JournalB :=
  { log := ⟨[]⟩
    struct := { course := [], language := [], sets := [⟨1, [5]⟩] } }

/-- The single test of the C3 counterexample course. -/
def tEx1 : FTest := { id := 1 }

/-- C3 counterexample course: one test, one group listing test id 1 twice
with `select: 2`, one set containing the group. -/
def cEx3 : ConfigFile :=
  { tests := [tEx1]
    testgroups := [{ id := 10, tests := [1, 1], select := some 2 }]
    sets := [{ id := 100, elements := [10] }] }

/-- C3 witness course: three distinct tests. -/
def cW3 : ConfigFile := { tests := [{ id := 1 }, { id := 2 }, { id := 3 }] }

/-- C3 witness group: choose two of the three tests. -/
def gW3 : FGroup := { id := 20, tests := [1, 2, 3], select := some 2 }

/-- C4 witness course: two tests, one group with a `select`, one set. -/
def cW4 : ConfigFile :=
  { tests := [{ id := 1 }, { id := 2 }]
    testgroups := [{ id := 10, tests := [1, 2], select := some 1 }]
    sets := [{ id := 100, elements := [10] }] }

/-- C4 witness minimal structure: the returning user was assigned test 2. -/
def minW4 : JournalStructureMinimal := { sets := [⟨100, [2]⟩] }

/-- C5/C6 witness user: pin 7, already locked with code `"X"`. -/
def userW5 : DBUser :=
  { pin := 7
    journal :=
      { log := ⟨[]⟩
        struct := { course := "c".toList, language := "en".toList, sets := [] } }
    result := { tests := [], validationCode := some ("X".toList) } }

/-- C5/C6 witness course config. -/
def cfgW5 : BackendConfig := { tests := [], validationSchema := "[0-9]".toList }

/-- C5/C6 witness course document. -/
def courseW5 : DBCourse :=
  { name := "c".toList
    configs := [{ language := "en".toList, config := cfgW5 }] }

/-- C5/C6 witness store. -/
def storeW5 : Store := { users := [userW5], courses := [courseW5] }

/-- The stored tests of the (first) user with a pin, as observed through
`findOne` — the frame the lock workflow must not touch. -/
def userTests (s : Store) (pin : Nat) : Option (List TestResultB) :=
  (findUser s pin).map (fun u => u.result.tests)

/-- An always-correct single option for choice tests. -/
def optT : TestOption := { text := [], correct := some (.bool true) }

/-- C7 evaluated checkbox test with id 1. -/
def testW7a : TestConfig :=
  { id := 1, category := "checkbox".toList, evaluated := true, options := [optT] }

/-- C7 evaluated checkbox test with id 2. -/
def testW7b : TestConfig :=
  { id := 2, category := "checkbox".toList, evaluated := true, options := [optT] }

/-- C7 config declaring tests 1 and 2. -/
def cfgW7 : BackendConfig := { tests := [testW7a, testW7b] }

/-- C7 journal: the structure set lists its tests in the order `[2, 1]`. -/
def journalW7 : JournalB :=
  { log := ⟨[⟨[⟨2, .arr [.bool true]⟩, ⟨1, .arr [.bool true]⟩]⟩]⟩
    struct := { course := [], language := [], sets := [⟨50, [2, 1]⟩] } }

/-- A JS primitive (non-string, non-array) log value: neither SpeedTest
variant can evaluate it. -/
def isPrimitiveVal : JSVal → Bool
  | .bool _ => true
  | .num _ => true
  | _ => false

/-! # Theorems -/

/-! ## Shared helper lemmas -/

theorem objGet_objSet_self (m : List (Nat × α)) (k : Nat) (v : α) :
    objGet (objSet m k v) k = some v := by
  induction m with
  | nil => simp [objSet, objGet]
  | cons e rest ih =>
    by_cases h : e.1 = k
    · simp [objSet, objGet, h]
    · obtain ⟨k', v'⟩ := e
      simp only at h
      simp [objSet, objGet, h, List.find?]
      simpa [objGet] using ih

theorem objGet_objSet_ne (m : List (Nat × α)) (k k' : Nat) (v : α) (h : k' ≠ k) :
    objGet (objSet m k v) k' = objGet m k' := by
  have hkk : (k == k') = false := beq_eq_false_iff_ne.mpr (Ne.symm h)
  induction m with
  | nil => simp [objSet, objGet, List.find?, hkk]
  | cons e rest ih =>
    obtain ⟨ke, ve⟩ := e
    by_cases he : ke = k
    · subst he
      simp [objSet, objGet, List.find?, hkk]
    · by_cases he' : ke = k'
      · subst he'
        simp [objSet, objGet, List.find?, he]
      · have hke' : (ke == k') = false := beq_eq_false_iff_ne.mpr he'
        simp only [objSet, if_neg he]
        simp [objGet, List.find?, hke'] at ih ⊢
        exact ih

theorem objGet_objSet_cases (m : List (Nat × α)) (k k' : Nat) (v e : α)
    (h : objGet (objSet m k v) k' = some e) :
    (k' = k ∧ e = v) ∨ objGet m k' = some e := by
  by_cases hk : k' = k
  · subst hk
    rw [objGet_objSet_self] at h
    exact Or.inl ⟨rfl, (Option.some_inj.mp h).symm⟩
  · rw [objGet_objSet_ne m k k' v hk] at h
    exact Or.inr h

theorem strIncludes_single (c : Char) (s : Str) :
    strIncludes [c] s = s.any (fun x => c == x) := by
  induction s with
  | nil => simp [strIncludes, firstIndexOf, strStartsWith]
  | cons x xs ih =>
    by_cases h : (c == x) = true
    · simp [strIncludes, firstIndexOf, strStartsWith, h]
    · simp only [Bool.not_eq_true] at h
      simp [strIncludes, firstIndexOf, strStartsWith, h] at ih ⊢
      exact ih

/-! ## Digit-character facts for the validation-code proofs -/

theorem digitChar_ne_special (d : Nat) (hd : d < 10) :
    (('[' : Char) == Nat.digitChar d) = false ∧ (('%' : Char) == Nat.digitChar d) = false ∧
    (('(' : Char) == Nat.digitChar d) = false ∧ ((')' : Char) == Nat.digitChar d) = false := by
  interval_cases d <;> decide

/-! ## tokenReplaceLoop / percentLoop stepping lemmas -/

theorem tokenReplaceLoop_done (rand : Nat → Nat) (tok : Str) (fuel : Nat) (c : Str) (k : Nat)
    (h : strIncludes tok c = false) : tokenReplaceLoop rand tok fuel c k = some (c, k) := by
  cases fuel <;> simp [tokenReplaceLoop, h]

theorem percentLoop_done (rand : Nat → Nat) (fuel : Nat) (c : Str) (k : Nat)
    (h : strIncludes (['%']) c = false) : percentLoop rand fuel c k = some (c, k) := by
  cases fuel <;> simp [percentLoop, h]

theorem parenLoop_done (ch : Char) (fuel : Nat) (c : Str)
    (h : strIncludes ([ch]) c = false) : parenLoop ch fuel c = some c := by
  cases fuel <;> simp [parenLoop, h]

theorem rollModulo_spec (rand : Nat → Nat) (m : Nat) :
    ∀ fuel k n k', rollModulo rand (some m) fuel k = some (n, k') → n < 10 ∧ n % m = 0 := by
  intro fuel
  induction fuel with
  | zero => intro k n k' h; simp [rollModulo] at h
  | succ f ih =>
    intro k n k' h
    simp only [rollModulo] at h
    by_cases hc : m ≠ 0 ∧ rand k % 10 % m = 0
    · rw [if_pos hc] at h
      obtain ⟨h1, h2⟩ := Prod.mk.injEq .. ▸ Option.some_inj.mp h
      exact h1 ▸ ⟨Nat.mod_lt _ (by norm_num), h1 ▸ hc.2⟩
    · rw [if_neg hc] at h
      exact ih (k + 1) n k' h

theorem tokenReplacement09 (x : Nat) :
    tokenReplacement ("[0-9]".toList) x = [Nat.digitChar (x % 10)] := by
  simp [tokenReplacement]

theorem replace09_template (c : Char) :
    replaceFirst ("[0-9]".toList) [c] templateC8
      = ['A', 'A', '-', c, '[', '0', '-', '9', ']', '%', '2'] := by
  simp [replaceFirst, templateC8, firstIndexOf, strStartsWith]

theorem idx09_mid (d : Nat) (hd : d < 10) :
    firstIndexOf ("[0-9]".toList)
      ['A', 'A', '-', Nat.digitChar d, '[', '0', '-', '9', ']', '%', '2'] = some 4 := by
  have h := (digitChar_ne_special d hd).1
  simp [firstIndexOf, strStartsWith, h]

theorem includes09_mid (d : Nat) (hd : d < 10) :
    strIncludes ("[0-9]".toList)
      ['A', 'A', '-', Nat.digitChar d, '[', '0', '-', '9', ']', '%', '2'] = true := by
  show (firstIndexOf _ _).isSome = true
  rw [idx09_mid d hd]
  rfl

theorem replace09_mid (d : Nat) (hd : d < 10) (c : Char) :
    replaceFirst ("[0-9]".toList) [c]
        ['A', 'A', '-', Nat.digitChar d, '[', '0', '-', '9', ']', '%', '2']
      = ['A', 'A', '-', Nat.digitChar d, c, '%', '2'] := by
  rw [replaceFirst, idx09_mid d hd]
  simp

theorem includes09_end (d e : Nat) (hd : d < 10) (he : e < 10) :
    strIncludes ("[0-9]".toList)
      ['A', 'A', '-', Nat.digitChar d, Nat.digitChar e, '%', '2'] = false := by
  have h1 := (digitChar_ne_special d hd).1
  have h2 := (digitChar_ne_special e he).1
  simp [strIncludes, firstIndexOf, strStartsWith, h1, h2]

theorem includesAZ_end (d e : Nat) (hd : d < 10) (he : e < 10) :
    strIncludes ("[A-Z]".toList)
      ['A', 'A', '-', Nat.digitChar d, Nat.digitChar e, '%', '2'] = false := by
  have h1 := (digitChar_ne_special d hd).1
  have h2 := (digitChar_ne_special e he).1
  simp [strIncludes, firstIndexOf, strStartsWith, h1, h2]

theorem includesLow_end (d e : Nat) (hd : d < 10) (he : e < 10) :
    strIncludes ("[a-z]".toList)
      ['A', 'A', '-', Nat.digitChar d, Nat.digitChar e, '%', '2'] = false := by
  have h1 := (digitChar_ne_special d hd).1
  have h2 := (digitChar_ne_special e he).1
  simp [strIncludes, firstIndexOf, strStartsWith, h1, h2]

theorem tokenReplaceLoop_step (rand : Nat → Nat) (tok : Str) (f : Nat) (c : Str) (k : Nat)
    (h : strIncludes tok c = true) :
    tokenReplaceLoop rand tok (f + 1) c k
      = tokenReplaceLoop rand tok f (replaceFirst tok (tokenReplacement tok (rand k)) c)
          (k + 1) := by
  simp [tokenReplaceLoop, h]

theorem tokenReplaceLoop_zero_none (rand : Nat → Nat) (tok : Str) (c : Str) (k : Nat)
    (h : strIncludes tok c = true) : tokenReplaceLoop rand tok 0 c k = none := by
  simp [tokenReplaceLoop, h]

theorem loop09_template (rand : Nat → Nat) :
    ∀ fuel k res, tokenReplaceLoop rand ("[0-9]".toList) fuel templateC8 k = some res →
      res = (['A', 'A', '-', Nat.digitChar (rand k % 10), Nat.digitChar (rand (k + 1) % 10),
              '%', '2'], k + 2) := by
  intro fuel k res h
  have hd1 : rand k % 10 < 10 := Nat.mod_lt _ (by norm_num)
  have hd2 : rand (k + 1) % 10 < 10 := Nat.mod_lt _ (by norm_num)
  have hinc0 : strIncludes ("[0-9]".toList) templateC8 = true := by decide
  cases fuel with
  | zero =>
    rw [tokenReplaceLoop_zero_none rand _ templateC8 k hinc0] at h
    exact absurd h (by simp)
  | succ f =>
    rw [tokenReplaceLoop_step rand _ f _ k hinc0, tokenReplacement09, replace09_template] at h
    cases f with
    | zero =>
      rw [tokenReplaceLoop_zero_none rand _ _ (k + 1) (includes09_mid _ hd1)] at h
      exact absurd h (by simp)
    | succ f2 =>
      rw [tokenReplaceLoop_step rand _ f2 _ (k + 1) (includes09_mid _ hd1),
        tokenReplacement09, replace09_mid _ hd1] at h
      rw [tokenReplaceLoop_done rand _ f2 _ (k + 2) (includes09_end _ _ hd1 hd2)] at h
      exact (Option.some_inj.mp h).symm

theorem pctIdx_end (d e : Nat) (hd : d < 10) (he : e < 10) :
    firstIndexOf (['%']) ['A', 'A', '-', Nat.digitChar d, Nat.digitChar e, '%', '2']
      = some 5 := by
  have h1 := (digitChar_ne_special d hd).2.1
  have h2 := (digitChar_ne_special e he).2.1
  simp [firstIndexOf, strStartsWith, h1, h2]

theorem pctPatIdx_end (d e : Nat) (hd : d < 10) (he : e < 10) :
    firstIndexOf (['%', '2']) ['A', 'A', '-', Nat.digitChar d, Nat.digitChar e, '%', '2']
      = some 5 := by
  have h1 := (digitChar_ne_special d hd).2.1
  have h2 := (digitChar_ne_special e he).2.1
  simp [firstIndexOf, strStartsWith, h1, h2]

theorem replacePct_end (d e n : Nat) (hd : d < 10) (he : e < 10) :
    replaceFirst (['%', '2']) [Nat.digitChar n]
        ['A', 'A', '-', Nat.digitChar d, Nat.digitChar e, '%', '2']
      = ['A', 'A', '-', Nat.digitChar d, Nat.digitChar e, Nat.digitChar n] := by
  rw [replaceFirst, pctPatIdx_end d e hd he]
  simp

theorem includesPct_final (d e n : Nat) (hd : d < 10) (he : e < 10) (hn : n < 10) :
    strIncludes (['%']) ['A', 'A', '-', Nat.digitChar d, Nat.digitChar e, Nat.digitChar n]
      = false := by
  have h1 := (digitChar_ne_special d hd).2.1
  have h2 := (digitChar_ne_special e he).2.1
  have h3 := (digitChar_ne_special n hn).2.1
  simp [strIncludes_single, h1, h2, h3]

theorem includesParen_final (d e n : Nat) (hd : d < 10) (he : e < 10) (hn : n < 10) :
    strIncludes (['(']) ['A', 'A', '-', Nat.digitChar d, Nat.digitChar e, Nat.digitChar n]
        = false ∧
      strIncludes ([')']) ['A', 'A', '-', Nat.digitChar d, Nat.digitChar e, Nat.digitChar n]
        = false := by
  have h1 := (digitChar_ne_special d hd).2.2
  have h2 := (digitChar_ne_special e he).2.2
  have h3 := (digitChar_ne_special n hn).2.2
  constructor <;> simp [strIncludes_single, h1.1, h2.1, h3.1, h1.2, h2.2, h3.2]

theorem percentLoop_step (rand : Nat → Nat) (f : Nat) (c : Str) (k i : Nat)
    (hinc : strIncludes (['%']) c = true)
    (hidx : firstIndexOf (['%']) c = some i) (hlt : i + 1 < c.length) :
    percentLoop rand (f + 1) c k
      = match rollModulo rand (jsToNumber (jsSubstr c (i + 1) (i + 2))) f k with
        | none => none
        | some (number, k') =>
          percentLoop rand f
            (replaceFirst ('%' :: jsSubstr c (i + 1) (i + 2)) [Nat.digitChar number] c) k' := by
  simp only [percentLoop, hinc, if_true, hidx, Option.getD_some, if_pos hlt]

theorem percentLoop_end (rand : Nat → Nat) (d e : Nat) (hd : d < 10) (he : e < 10) :
    ∀ fuel k res,
      percentLoop rand fuel ['A', 'A', '-', Nat.digitChar d, Nat.digitChar e, '%', '2'] k
          = some res →
      ∃ n k', n < 10 ∧ n % 2 = 0 ∧
        res = (['A', 'A', '-', Nat.digitChar d, Nat.digitChar e, Nat.digitChar n], k') := by
  intro fuel k res h
  have hinc : strIncludes (['%'])
      ['A', 'A', '-', Nat.digitChar d, Nat.digitChar e, '%', '2'] = true := by
    simp [strIncludes_single]
  cases fuel with
  | zero => simp [percentLoop, hinc] at h
  | succ f =>
    have hlt : (5 : Nat) + 1
        < (['A', 'A', '-', Nat.digitChar d, Nat.digitChar e, '%', '2'] : Str).length := by
      simp
    rw [percentLoop_step rand f _ k 5 hinc (pctIdx_end d e hd he) hlt] at h
    have hmod : jsSubstr ['A', 'A', '-', Nat.digitChar d, Nat.digitChar e, '%', '2']
        (5 + 1) (5 + 2) = ['2'] := rfl
    rw [hmod] at h
    have hnum : jsToNumber (['2']) = some 2 := by decide
    rw [hnum] at h
    cases hroll : rollModulo rand (some 2) f k with
    | none => rw [hroll] at h; simp at h
    | some nk =>
      obtain ⟨n, k₁⟩ := nk
      obtain ⟨hn10, hn2⟩ := rollModulo_spec rand 2 f k n k₁ hroll
      rw [hroll] at h
      dsimp only [] at h
      rw [replacePct_end d e n hd he] at h
      rw [percentLoop_done rand f _ k₁ (includesPct_final d e n hd he hn10)] at h
      exact ⟨n, k₁, hn10, hn2, (Option.some_inj.mp h).symm⟩

/-! ## Claim C1 -/

/-- C1: SPEED scoring of the backend occurrence-variant scorer on the
documented example (text `"ab:cd:ef"`, `correct=":"`, `index=1`).  The claim
(and the testmodel's own schema documentation) says the span `[5,6]` covering
the second colon is awarded and the span `[2,3]` covering the first colon is
recorded wrong.  The code does the opposite: occurrence spans after the first
are recorded relative to the sliced search string, so both colons are stored
as `(2,3)`, `selectedOccurence` ends at 1 for the span `[2,3]` and at -1 for
the span `[5,6]`.  The sentinel `[-1,-1]` is skipped as claimed.  This
theorem evaluates the embedded scorer at the three claimed inputs, exhibiting
the divergence. -/
theorem speed_scoring_c1_code_divergence :
    speedCalculateResult [speedOptC1] [.arr [.num 5, .num 6]] = some ⟨0, [], [0]⟩ ∧
    speedCalculateResult [speedOptC1] [.arr [.num 2, .num 3]] = some ⟨1, [0], []⟩ ∧
    speedCalculateResult [speedOptC1] [.arr [.num (-1), .num (-1)]] = some ⟨0, [], []⟩ := by
  refine ⟨by decide, by decide, by decide⟩

/-! ## Claim C8 -/

/-- C8 counterexample: with the all-zero random stream the template
`"AA-[0-9][0-9]%2"` generates `"AA-000"` — six characters, three digits —
which does not match the claimed two-letters-dash-two-digits format. -/
theorem validation_code_c8_counterexample :
    generateValidationCode templateC8 (fun _ => 0) 20 = some ("AA-000".toList) ∧
    claimC8Format ("AA-000".toList) = false := by
  refine ⟨by decide, by decide⟩

/-- C8 amended: for every random stream and fuel, a completed generation from
`"AA-[0-9][0-9]%2"` is the literal two uppercase letters `AA`, a dash, and
THREE digits, the last of which is even (the `%2` token together with its
modulo digit is replaced by the rerolled digit, it does not constrain the two
`[0-9]` digits; the resulting numeric value is still divisible by 2). -/
theorem validation_code_shape (rand : Nat → Nat) (fuel : Nat) (out : Str)
    (h : generateValidationCode templateC8 rand fuel = some out) :
    ∃ d1 d2 n, d1 < 10 ∧ d2 < 10 ∧ n < 10 ∧ n % 2 = 0 ∧
      out = ['A', 'A', '-', Nat.digitChar d1, Nat.digitChar d2, Nat.digitChar n] := by
  have hd1 : rand 0 % 10 < 10 := Nat.mod_lt _ (by norm_num)
  have hd2 : rand 1 % 10 < 10 := Nat.mod_lt _ (by norm_num)
  unfold generateValidationCode at h
  cases h09 : tokenReplaceLoop rand ("[0-9]".toList) fuel templateC8 0 with
  | none => rw [h09] at h; simp at h
  | some res09 =>
    rw [h09] at h
    have h09' := loop09_template rand fuel 0 res09 h09
    subst h09'
    simp only [] at h
    rw [tokenReplaceLoop_done rand _ fuel _ 2 (includesAZ_end _ _ hd1 hd2)] at h
    simp only [] at h
    rw [tokenReplaceLoop_done rand _ fuel _ 2 (includesLow_end _ _ hd1 hd2)] at h
    simp only [] at h
    cases hpct : percentLoop rand fuel
        ['A', 'A', '-', Nat.digitChar (rand 0 % 10), Nat.digitChar (rand 1 % 10), '%', '2'] 2 with
    | none => rw [hpct] at h; simp at h
    | some res4 =>
      rw [hpct] at h
      obtain ⟨n, k', hn10, hn2, hres⟩ := percentLoop_end rand _ _ hd1 hd2 fuel 2 res4 hpct
      subst hres
      simp only [] at h
      rw [parenLoop_done '(' fuel _ (includesParen_final _ _ _ hd1 hd2 hn10).1] at h
      dsimp only [] at h
      rw [parenLoop_done ')' fuel _ (includesParen_final _ _ _ hd1 hd2 hn10).2] at h
      exact ⟨rand 0 % 10, rand 1 % 10, n, hd1, hd2, hn10, hn2, (Option.some_inj.mp h).symm⟩

/-- C8 amended witness: the all-zero stream completes and instantiates the
shape theorem at `"AA-000"`. -/
theorem validation_code_shape_witness :
    ∃ d1 d2 n, d1 < 10 ∧ d2 < 10 ∧ n < 10 ∧ n % 2 = 0 ∧
      ("AA-000".toList) = ['A', 'A', '-', Nat.digitChar d1, Nat.digitChar d2, Nat.digitChar n] :=
  validation_code_shape (fun _ => 0) 20 ("AA-000".toList) (by decide)

/-! ## Claim C10 -/

/-- C10 counterexample: a speed config accepted by both schemas (text
`"ab:cd:ef"`, `correct ":"`, `index "1"`, plus the `seconds` field required by
both) and the log `[[2,3]]`: the substring variant cannot evaluate an array
entry and returns the empty result, while the occurrence variant scores it —
the two implementations disagree. -/
theorem speed_variants_counterexample :
    speedCalculateResultSub [speedOptC1] [.arr [.num 2, .num 3]] = some ⟨0, [], []⟩ ∧
    speedCalculateResult [speedOptC1] [.arr [.num 2, .num 3]] = some ⟨1, [0], []⟩ ∧
    speedCalculateResultSub [speedOptC1] [.arr [.num 2, .num 3]]
      ≠ speedCalculateResult [speedOptC1] [.arr [.num 2, .num 3]] := by
  refine ⟨by decide, by decide, by decide⟩

/-- C10 amended: the two SpeedTest implementations are not equivalent on
evaluable logs (see the counterexample); what does hold is that they agree on
`maxScore` (both count the options carrying `correct`) and that they return
identical empty results on logs whose entries are primitives (neither strings
nor arrays), which neither variant can evaluate. -/
theorem speed_variants_partial_agreement :
    (∀ options : List TestOption, speedMaxScoreSub options = speedMaxScore options) ∧
    (∀ (options : List TestOption) (log : List JSVal),
      log.length ≤ options.length → (∀ v ∈ log, isPrimitiveVal v = true) →
      speedCalculateResultSub options log = some ⟨0, [], []⟩ ∧
      speedCalculateResult options log = some ⟨0, [], []⟩) := by
  constructor
  · intro options; rfl
  · intro options log hlen hprim
    have main : ∀ (l : List JSVal) (i : Nat) (acc : ScoreResult),
        i + l.length ≤ options.length → (∀ v ∈ l, isPrimitiveVal v = true) →
        speedSubGo options l i acc = some acc ∧ speedCalcGo options l i acc = some acc := by
      intro l
      induction l with
      | nil => intro i acc _ _; exact ⟨rfl, rfl⟩
      | cons v rest ih =>
        intro i acc hle hpr
        rw [List.length_cons] at hle
        have hi : i < options.length := by omega
        have hopt : options[i]? = some (options[i]) := List.getElem?_eq_getElem hi
        have hrest := ih (i + 1) acc (by omega)
          (fun v hv => hpr v (List.mem_cons_of_mem _ hv))
        have hv := hpr v (List.mem_cons_self v rest)
        cases v with
        | bool b => exact ⟨by simp [speedSubGo, hopt, hrest.1], by simp [speedCalcGo, hopt, hrest.2]⟩
        | num m => exact ⟨by simp [speedSubGo, hopt, hrest.1], by simp [speedCalcGo, hopt, hrest.2]⟩
        | str s => simp [isPrimitiveVal] at hv
        | arr a => simp [isPrimitiveVal] at hv
    exact (main log 0 ⟨0, [], []⟩ (by simpa using hlen) hprim)

/-- C10 amended witness: instantiating the agreement theorem on the C1 option
and a `false` (boolean) log entry. -/
theorem speed_variants_partial_agreement_witness :
    speedCalculateResultSub [speedOptC1] [.bool false] = some ⟨0, [], []⟩ ∧
    speedCalculateResult [speedOptC1] [.bool false] = some ⟨0, [], []⟩ :=
  speed_variants_partial_agreement.2 [speedOptC1] [.bool false] (by decide)
    (by intro v hv; simp at hv; subst hv; rfl)

/-! ## Claim C2 -/

theorem collectSetTests_none (config : BackendConfig) (logSets : List LogSet) :
    ∀ (ids : List Nat) (acc : List (Nat × (TestConfig × JSVal))),
      (∃ id ∈ ids, findTestConfig config id = none ∨
        (∃ tc, findTestConfig config id = some tc ∧ tc.evaluated = true ∧
          findTestLog logSets id = none)) →
      collectSetTests config logSets ids acc = none := by
  intro ids
  induction ids with
  | nil => intro acc h; simp at h
  | cons id rest ih =>
    intro acc h
    obtain ⟨id', hmem, hbad⟩ := h
    rcases List.mem_cons.mp hmem with heq | hmem'
    · subst heq
      rcases hbad with hnone | ⟨tc, htc, hev, hlog⟩
      · simp [collectSetTests, hnone]
      · simp [collectSetTests, htc, hev, hlog]
    · cases hfc : findTestConfig config id with
      | none => simp [collectSetTests, hfc]
      | some tc =>
        by_cases hev : tc.evaluated = false
        · simp only [collectSetTests, hfc, hev, if_true]
          exact ih acc ⟨id', hmem', hbad⟩
        · cases hlog : findTestLog logSets id with
          | none => simp [collectSetTests, hfc, hev, hlog]
          | some lv =>
            simp only [collectSetTests, hfc, hev, if_false, hlog]
            exact ih _ ⟨id', hmem', hbad⟩

theorem collectTestsData_none (config : BackendConfig) (logSets : List LogSet) :
    ∀ (sets : List StructSet) (acc : List (Nat × (TestConfig × JSVal))),
      (∃ s ∈ sets, ∃ id ∈ s.tests, findTestConfig config id = none ∨
        (∃ tc, findTestConfig config id = some tc ∧ tc.evaluated = true ∧
          findTestLog logSets id = none)) →
      collectTestsData config logSets sets acc = none := by
  intro sets
  induction sets with
  | nil => intro acc h; simp at h
  | cons s rest ih =>
    intro acc h
    obtain ⟨s', hmem, hbad⟩ := h
    rcases List.mem_cons.mp hmem with heq | hmem'
    · subst heq
      rw [collectTestsData, collectSetTests_none config logSets s'.tests acc hbad]
    · cases hcs : collectSetTests config logSets s.tests acc with
      | none => simp [collectTestsData, hcs]
      | some acc' =>
        simp only [collectTestsData, hcs]
        exact ih acc' ⟨s', hmem', hbad⟩

/-- C2: if any structure set references a test id with no matching config in
`config.tests`, or an evaluated test id with no entry anywhere in
`journal.log`, then `calculate` returns `null` — the whole calculation
aborts, no partial list is produced. -/
theorem calculate_aborts_on_missing_data (config : BackendConfig) (journal : JournalB)
    (h : ∃ s ∈ journal.struct.sets, ∃ id ∈ s.tests,
      findTestConfig config id = none ∨
      (∃ tc, findTestConfig config id = some tc ∧ tc.evaluated = true ∧
        findTestLog journal.log.sets id = none)) :
    calculate config journal = none := by
  rw [calculate, collectTestsData_none config journal.log.sets journal.struct.sets [] h]

/-- C2 witness: a journal whose only structure set references test id 5,
absent from the empty config — `calculate` aborts. -/
theorem calculate_aborts_witness : calculate cfgW2 journalW2 = none :=
  calculate_aborts_on_missing_data cfgW2 journalW2
    ⟨⟨1, [5]⟩, by simp [journalW2], 5, by simp, Or.inl rfl⟩

/-! ## Claim C9 -/

theorem objSet_fresh_append {α : Type} :
    ∀ (acc : List (Nat × α)) (k : Nat) (v : α), (∀ q ∈ acc, q.1 ≠ k) →
      objSet acc k v = acc ++ [(k, v)] := by
  intro acc
  induction acc with
  | nil => intro k v _; rfl
  | cons q rest ih =>
    intro k v hfr
    obtain ⟨kq, vq⟩ := q
    have hne : kq ≠ k := hfr (kq, vq) (List.mem_cons_self _ _)
    simp only [objSet, if_neg hne, List.cons_append, List.cons.injEq, true_and]
    exact ih k v (fun q hq => hfr q (List.mem_cons_of_mem _ hq))

theorem foldl_objSet_fresh {α : Type} :
    ∀ (l acc : List (Nat × α)), (l.map Prod.fst).Nodup →
      (∀ p ∈ l, ∀ q ∈ acc, q.1 ≠ p.1) →
      l.foldl (fun a e => objSet a e.1 e.2) acc = acc ++ l := by
  intro l
  induction l with
  | nil => intro acc _ _; simp
  | cons p rest ih =>
    intro acc hnd hfr
    obtain ⟨k, v⟩ := p
    rw [List.map_cons, List.nodup_cons] at hnd
    simp only [List.foldl_cons]
    rw [objSet_fresh_append acc k v (fun q hq => hfr (k, v) (List.mem_cons_self _ _) q hq)]
    rw [ih (acc ++ [(k, v)]) hnd.2 ?fresh]
    · simp
    case fresh =>
      intro p' hp' q hq
      rcases List.mem_append.mp hq with hq' | hq'
      · exact hfr p' (List.mem_cons_of_mem _ hp') q hq'
      · rcases List.mem_singleton.mp hq' with rfl
        intro hcontra
        exact hnd.1 (hcontra ▸ List.mem_map_of_mem Prod.fst hp')

/-- C9: the journal-log wire format round-trips losslessly — extracting a
prepared log yields the original log, set for set and entry for entry
(journal-log maps have unique keys per set, which the hypothesis records). -/
theorem journal_log_roundtrip (log : FJournalLog)
    (h : ∀ m ∈ log.sets, (m.map Prod.fst).Nodup) :
    extractSavedJournalLog (prepareJournalLogForSaving log) = log := by
  obtain ⟨sets⟩ := log
  simp only [prepareJournalLogForSaving, extractSavedJournalLog, List.map_map,
    FJournalLog.mk.injEq]
  have hsets : ∀ m ∈ sets, ((m.map fun e => LogMapEntry.mk e.1 e.2).foldl
      (fun acc e => objSet acc e.key e.val) []) = m := by
    intro m hm
    rw [List.foldl_map]
    exact foldl_objSet_fresh m [] (h m hm) (by simp)
  calc sets.map (fun m => ((m.map fun e => LogMapEntry.mk e.1 e.2).foldl
        (fun acc e => objSet acc e.key e.val) []))
      = sets.map id := List.map_congr_left hsets
    _ = sets := List.map_id sets

/-- C9 witness: a concrete two-set log (one with two entries, one empty)
round-trips unchanged. -/
theorem journal_log_roundtrip_witness :
    extractSavedJournalLog (prepareJournalLogForSaving
      ⟨[[(1, .bool true), (2, .num 3)], []]⟩) = ⟨[[(1, .bool true), (2, .num 3)], []]⟩ :=
  journal_log_roundtrip ⟨[[(1, .bool true), (2, .num 3)], []]⟩
    (by
      intro m hm
      simp at hm
      rcases hm with rfl | rfl <;> decide)

/-! ## Claim C4 -/

theorem buildGroups_resume (allST : List (Nat × SetElement)) (rawT : List Nat)
    (rand : Nat → Nat) (fuel : Nat) :
    ∀ (gs : List FGroup) (k : Nat) (m : List (Nat × List (Option SetElement))),
      buildGroups allST rawT true rand fuel gs k m
        = some (gs.foldl
            (fun m' g => objSet m' g.id
              ((g.tests.filter (fun id => rawT.contains id)).map (fun id => objGet allST id)))
            m, k) := by
  intro gs
  induction gs with
  | nil => intro k m; rfl
  | cons g rest ih =>
    intro k m
    rw [buildGroups]
    simp only [groupTemp, if_true]
    rw [List.foldl_cons]
    exact ih k _

theorem foldl_objSet_entries {β : Type} (f : FGroup → β) :
    ∀ (gs : List FGroup) (m : List (Nat × β)) (gid : Nat) (temp : β),
      objGet (gs.foldl (fun m' g => objSet m' g.id (f g)) m) gid = some temp →
      (∃ g ∈ gs, g.id = gid ∧ temp = f g) ∨ objGet m gid = some temp := by
  intro gs
  induction gs with
  | nil => intro m gid temp h; exact Or.inr h
  | cons g rest ih =>
    intro m gid temp h
    rw [List.foldl_cons] at h
    rcases ih _ gid temp h with hl | hr
    · obtain ⟨g', hg', hid, ht⟩ := hl
      exact Or.inl ⟨g', List.mem_cons_of_mem _ hg', hid, ht⟩
    · rcases objGet_objSet_cases m g.id gid (f g) temp hr with ⟨heq, hv⟩ | hm
      · exact Or.inl ⟨g, List.mem_cons_self _ _, heq.symm, hv⟩
      · exact Or.inr hm

/-- C4: resume-mode structure building is deterministic — the random source
and the fuel are never consulted — and every entry of the `testsInTestgroup`
map is the id-filtered resolution of a declared group: precisely the test
ids recorded in the minimal prior structure, filtered from `group.tests`,
resolved through `allSingleTests`. -/
theorem resume_structure_deterministic :
    (∀ (course : ConfigFile) (m : JournalStructureMinimal) (rand₁ rand₂ : Nat → Nat)
        (fuel₁ fuel₂ : Nat),
      createJournalStructure course (some m) rand₁ fuel₁
        = createJournalStructure course (some m) rand₂ fuel₂) ∧
    (∀ (course : ConfigFile) (m : JournalStructureMinimal) (rand : Nat → Nat) (fuel : Nat)
        (tg : List (Nat × List (Option SetElement))) (k : Nat),
      buildGroups (allSingleTestsOf course) (rawTestsOf m) true rand fuel
          course.testgroups 0 [] = some (tg, k) →
      ∀ gid temp, objGet tg gid = some temp →
        ∃ g ∈ course.testgroups, g.id = gid ∧
          temp = (g.tests.filter (fun id => (rawTestsOf m).contains id)).map
            (fun id => objGet (allSingleTestsOf course) id)) := by
  constructor
  · intro course m rand₁ rand₂ fuel₁ fuel₂
    rw [createJournalStructure, createJournalStructure]
    simp only [Option.isSome_some]
    rw [buildGroups_resume, buildGroups_resume]
  · intro course m rand fuel tg k hbg gid temp hget
    rw [buildGroups_resume] at hbg
    obtain ⟨htg, _⟩ := Prod.mk.injEq .. ▸ Option.some_inj.mp hbg
    subst htg
    rcases foldl_objSet_entries
        (fun g => (g.tests.filter (fun id => (rawTestsOf m).contains id)).map
          (fun id => objGet (allSingleTestsOf course) id))
        course.testgroups [] gid temp hget with hl | hr
    · exact hl
    · simp [objGet, List.find?] at hr

/-- C4 witness: on the concrete course `cW4` (a group with `select`) and the
minimal structure recording test 2, resume mode produces the same structure
for two different random sources and resolves the group to `[test 2]`. -/
theorem resume_structure_deterministic_witness :
    createJournalStructure cW4 (some minW4) (fun _ => 0) 5
        = createJournalStructure cW4 (some minW4) (fun k => k + 1) 7 ∧
      ∃ g ∈ cW4.testgroups, g.id = 10 ∧
        ((objGet (allSingleTestsOf cW4) 2) :: []) =
          (g.tests.filter (fun id => (rawTestsOf minW4).contains id)).map
            (fun id => objGet (allSingleTestsOf cW4) id) := by
  constructor
  · exact resume_structure_deterministic.1 cW4 minW4 (fun _ => 0) (fun k => k + 1) 5 7
  · obtain ⟨g, hg, hid, htemp⟩ := resume_structure_deterministic.2 cW4 minW4 (fun _ => 0) 5
      _ _ rfl 10 ((objGet (allSingleTestsOf cW4) 2) :: []) rfl
    exact ⟨g, hg, hid, htemp⟩

/-! ## Claims C5 and C6 -/

theorem codeTruthy_some (c : Str) (h : c ≠ []) : codeTruthy (some c) = true := by
  cases c with
  | nil => exact absurd rfl h
  | cons x xs => rfl

theorem findUser_setUserCode :
    ∀ (users : List DBUser) (pin : Nat) (code : Str) (u : DBUser),
      users.find? (fun w => w.pin == pin) = some u →
      (setUserCode users pin code).find? (fun w => w.pin == pin)
        = some { u with result := { u.result with validationCode := some code } } := by
  intro users
  induction users with
  | nil => intro pin code u h; simp [List.find?] at h
  | cons w rest ih =>
    intro pin code u h
    rw [List.find?_cons] at h
    cases hw : (w.pin == pin) with
    | true =>
      rw [hw] at h
      dsimp only [] at h
      obtain rfl := Option.some_inj.mp h
      simp [setUserCode, hw, List.find?_cons]
    | false =>
      rw [hw] at h
      dsimp only [] at h
      simp only [setUserCode, hw, Bool.false_eq_true, if_false]
      rw [List.find?_cons, hw]
      dsimp only []
      exact ih pin code u h

/-- C5: `lock` is idempotent.  (i) When a (truthy) validation code already
exists for the pin's result and user, course and language config resolve,
`lock` answers with exactly that code and leaves the store untouched.
(ii) Whatever a first successful `lock` returned, a second `lock` on the
resulting store returns the identical code, changes nothing, and the stored
`tests` list is the one from before the first call. -/
theorem lock_idempotent :
    (∀ (s : Store) (pin : Nat) (rand : Nat → Nat) (fuel : Nat) (u : DBUser) (c : Str)
        (course : DBCourse) (cfg : BackendConfig),
      findUser s pin = some u →
      findCourse s u.journal.struct.course = some course →
      findConfigBreak course.configs u.journal.struct.language = some cfg →
      u.result.validationCode = some c → c ≠ [] →
      lock s pin rand fuel = (s, .ok c)) ∧
    (∀ (s : Store) (pin : Nat) (rand₁ rand₂ : Nat → Nat) (fuel₁ fuel₂ : Nat)
        (s₁ : Store) (c₁ : Str),
      lock s pin rand₁ fuel₁ = (s₁, .ok c₁) → c₁ ≠ [] →
      lock s₁ pin rand₂ fuel₂ = (s₁, .ok c₁) ∧ userTests s₁ pin = userTests s pin) := by
  constructor
  · intro s pin rand fuel u c course cfg hu hcourse hcfg hvc hne
    rw [lock, hu]
    dsimp only []
    rw [hcourse]
    dsimp only []
    rw [hcfg]
    dsimp only []
    rw [hvc, codeTruthy_some c hne]
    simp
  · intro s pin rand₁ rand₂ fuel₁ fuel₂ s₁ c₁ h hne
    rw [lock] at h
    cases hu : findUser s pin with
    | none => rw [hu] at h; dsimp only [] at h; rw [Prod.ext_iff] at h; simp at h
    | some u =>
      rw [hu] at h
      dsimp only [] at h
      cases hcourse : findCourse s u.journal.struct.course with
      | none => rw [hcourse] at h; dsimp only [] at h; rw [Prod.ext_iff] at h; simp at h
      | some course =>
        rw [hcourse] at h
        dsimp only [] at h
        cases hcfg : findConfigBreak course.configs u.journal.struct.language with
        | none => rw [hcfg] at h; dsimp only [] at h; rw [Prod.ext_iff] at h; simp at h
        | some cfg =>
          rw [hcfg] at h
          dsimp only [] at h
          cases htr : codeTruthy u.result.validationCode with
          | true =>
            rw [htr] at h
            simp only [if_true] at h
            rw [Prod.ext_iff] at h
            obtain ⟨hs, hr⟩ := h
            dsimp only [] at hs hr
            cases hvc : u.result.validationCode with
            | none => rw [hvc] at htr; simp [codeTruthy] at htr
            | some c =>
              subst hs
              rw [hvc] at hr
              simp only [Option.getD_some, LockResp.ok.injEq] at hr
              subst hr
              refine ⟨?_, rfl⟩
              rw [lock, hu]
              dsimp only []
              rw [hcourse]
              dsimp only []
              rw [hcfg]
              dsimp only []
              rw [hvc, codeTruthy_some c hne]
              simp
          | false =>
            rw [htr] at h
            simp only [Bool.false_eq_true, if_false] at h
            cases hgen : generateValidationCode cfg.validationSchema rand₁ fuel₁ with
            | none => rw [hgen] at h; dsimp only [] at h; rw [Prod.ext_iff] at h; simp at h
            | some code =>
              rw [hgen] at h
              dsimp only [] at h
              rw [Prod.ext_iff] at h
              obtain ⟨hs, hr⟩ := h
              dsimp only [] at hs hr
              simp only [LockResp.ok.injEq] at hr
              subst hr
              have hu₁ : findUser s₁ pin
                  = some { u with result := { u.result with validationCode := some code } } := by
                rw [← hs]
                exact findUser_setUserCode s.users pin code u hu
              have hcfind : findCourse s₁ u.journal.struct.course
                  = some course := by
                rw [← hs, ← hcourse]
                rfl
              constructor
              · rw [lock, hu₁]
                dsimp only []
                rw [hcfind]
                dsimp only []
                rw [hcfg]
                dsimp only []
                rw [codeTruthy_some code hne]
                simp
              · rw [userTests, userTests, hu₁, hu]
                rfl

/-- C5 witness: on the already-locked store `storeW5`, `lock` answers with
the stored code `"X"` and leaves the store unchanged. -/
theorem lock_idempotent_witness :
    lock storeW5 7 (fun _ => 0) 0 = (storeW5, .ok ("X".toList)) :=
  lock_idempotent.1 storeW5 7 (fun _ => 0) 0 userW5 ("X".toList) courseW5 cfgW5
    rfl rfl rfl rfl (by decide)

/-- C6: `update` against a pin whose result carries a (truthy) validation
code responds HTTP 200 with the frozen stored tests and performs no write:
the store — in particular `result.tests` — is returned unchanged. -/
theorem update_locked_pin_frozen (s : Store) (pin : Nat) (u : DBUser) (c : Str)
    (hu : findUser s pin = some u) (hc : u.result.validationCode = some c) (hne : c ≠ []) :
    update s pin = (s, .okTests u.result.tests) := by
  rw [update, hu]
  dsimp only []
  rw [hc, codeTruthy_some c hne]
  simp

/-- C6 witness: `update` on the locked store `storeW5` returns the stored
(empty) tests list and the unchanged store. -/
theorem update_locked_pin_frozen_witness :
    update storeW5 7 = (storeW5, .okTests []) :=
  update_locked_pin_frozen storeW5 7 userW5 ("X".toList) rfl rfl (by decide)

/-! ## Claim C7 -/

theorem objSet_keys_mem {α : Type} :
    ∀ (m : List (Nat × α)) (k : Nat) (v : α) (x : Nat),
      (x ∈ (objSet m k v).map Prod.fst ↔ x ∈ m.map Prod.fst ∨ x = k) := by
  intro m k v x
  induction m with
  | nil => simp [objSet]
  | cons e rest ih =>
    obtain ⟨ke, ve⟩ := e
    by_cases he : ke = k
    · subst he
      simp only [objSet, if_true, eq_self_iff_true, List.map_cons, List.mem_cons]
      tauto
    · simp only [objSet, if_neg he, List.map_cons, List.mem_cons] at ih ⊢
      tauto

theorem objSet_keys_nodup {α : Type} :
    ∀ (m : List (Nat × α)) (k : Nat) (v : α),
      (m.map Prod.fst).Nodup → ((objSet m k v).map Prod.fst).Nodup := by
  intro m k v
  induction m with
  | nil => intro _; simp [objSet]
  | cons e rest ih =>
    obtain ⟨ke, ve⟩ := e
    intro hnd
    rw [List.map_cons, List.nodup_cons] at hnd
    by_cases he : ke = k
    · subst he
      simp only [objSet, if_true, eq_self_iff_true, List.map_cons, List.nodup_cons]
      exact hnd
    · simp only [objSet, if_neg he, List.map_cons, List.nodup_cons]
      refine ⟨?_, ih hnd.2⟩
      intro hmem
      rcases (objSet_keys_mem rest k v ke).mp hmem with hin | heq
      · exact hnd.1 hin
      · exact he heq

theorem collectSetTests_nodup (config : BackendConfig) (logSets : List LogSet) :
    ∀ (ids : List Nat) (acc acc' : List (Nat × (TestConfig × JSVal))),
      (acc.map Prod.fst).Nodup → collectSetTests config logSets ids acc = some acc' →
      (acc'.map Prod.fst).Nodup := by
  intro ids
  induction ids with
  | nil =>
    intro acc acc' hnd h
    rw [collectSetTests] at h
    obtain rfl := Option.some_inj.mp h
    exact hnd
  | cons id rest ih =>
    intro acc acc' hnd h
    rw [collectSetTests] at h
    cases hfc : findTestConfig config id with
    | none => rw [hfc] at h; simp at h
    | some tc =>
      rw [hfc] at h
      dsimp only [] at h
      by_cases hev : tc.evaluated = false
      · rw [if_pos hev] at h
        exact ih acc acc' hnd h
      · rw [if_neg hev] at h
        cases hlog : findTestLog logSets id with
        | none => rw [hlog] at h; simp at h
        | some lv =>
          rw [hlog] at h
          dsimp only [] at h
          exact ih _ acc' (objSet_keys_nodup acc id _ hnd) h

theorem collectTestsData_nodup (config : BackendConfig) (logSets : List LogSet) :
    ∀ (sets : List StructSet) (acc acc' : List (Nat × (TestConfig × JSVal))),
      (acc.map Prod.fst).Nodup → collectTestsData config logSets sets acc = some acc' →
      (acc'.map Prod.fst).Nodup := by
  intro sets
  induction sets with
  | nil =>
    intro acc acc' hnd h
    rw [collectTestsData] at h
    obtain rfl := Option.some_inj.mp h
    exact hnd
  | cons s rest ih =>
    intro acc acc' hnd h
    rw [collectTestsData] at h
    cases hcs : collectSetTests config logSets s.tests acc with
    | none => rw [hcs] at h; simp at h
    | some acc₁ =>
      rw [hcs] at h
      dsimp only [] at h
      exact ih acc₁ acc' (collectSetTests_nodup config logSets s.tests acc acc₁ hnd hcs) h

theorem resultsLoop_ids_sublist (data : List (Nat × (TestConfig × JSVal))) :
    ∀ (ks : List Nat) (l : List TestResultB),
      resultsLoop data ks = some l → List.Sublist (l.map TestResultB.id) ks := by
  intro ks
  induction ks with
  | nil =>
    intro l h
    rw [resultsLoop] at h
    obtain rfl := Option.some_inj.mp h
    simp
  | cons k rest ih =>
    intro l h
    rw [resultsLoop] at h
    cases hg : objGet data k with
    | none =>
      rw [hg] at h
      dsimp only [] at h
      exact (ih l h).cons k
    | some tcl =>
      rw [hg] at h
      obtain ⟨tc, lv⟩ := tcl
      dsimp only [] at h
      cases hf : factoryCreate tc with
      | none =>
        rw [hf] at h
        dsimp only [] at h
        exact (ih l h).cons k
      | some inst =>
        rw [hf] at h
        dsimp only [] at h
        cases hic : instanceCalculate inst lv with
        | none => rw [hic] at h; simp at h
        | some r =>
          rw [hic] at h
          dsimp only [] at h
          cases hrec : resultsLoop data rest with
          | none => rw [hrec] at h; simp at h
          | some tl =>
            rw [hrec] at h
            dsimp only [Option.map] at h
            obtain rfl := Option.some_inj.mp h
            simpa using (ih tl hrec).cons₂ k

/-- C7 counterexample: the structure set lists its tests in the order
`[2, 1]`, but `calculate` returns one flat list (no per-set ResultSet
grouping) whose entries are ordered `[1, 2]` — ascending test id, the JS
object-key iteration order — not the structure's element order. -/
theorem calculate_ordering_counterexample :
    journalW7.struct.sets.map (fun s => s.tests) = [[2, 1]] ∧
    (calculate cfgW7 journalW7).map (fun l => l.map (fun r => r.id)) = some [1, 2] := by
  refine ⟨by decide, by decide⟩

/-- C7 amended: a successful `calculate` yields a single flat list of
TestResults (not ResultSets), and its entries are strictly sorted by test id
(the `for...in` iteration over the integer-keyed `testsData` object), rather
than following the structure's set and element ordering. -/
theorem calculate_flat_sorted_results (config : BackendConfig) (journal : JournalB)
    (l : List TestResultB) (h : calculate config journal = some l) :
    List.Pairwise (fun a b => a < b) (l.map TestResultB.id) := by
  rw [calculate] at h
  cases hc : collectTestsData config journal.log.sets journal.struct.sets [] with
  | none => rw [hc] at h; simp at h
  | some data =>
    rw [hc] at h
    dsimp only [] at h
    have hnd : (data.map Prod.fst).Nodup :=
      collectTestsData_nodup config journal.log.sets journal.struct.sets [] data (by simp) hc
    have hsorted : List.Sorted (· ≤ ·) (List.insertionSort (· ≤ ·) (data.map Prod.fst)) :=
      List.sorted_insertionSort _ _
    have hnd' : (List.insertionSort (· ≤ ·) (data.map Prod.fst)).Nodup :=
      ((List.perm_insertionSort (· ≤ ·) (data.map Prod.fst)).nodup_iff).mpr hnd
    exact (hsorted.lt_of_le hnd').sublist
      (resultsLoop_ids_sublist data (List.insertionSort (· ≤ ·) (data.map Prod.fst)) l h)

/-- C7 amended witness: on the concrete journal `journalW7` (structure order
`[2, 1]`) the computed flat result list is sorted by ascending id. -/
theorem calculate_flat_sorted_results_witness :
    List.Pairwise (fun a b => a < b)
      (([⟨1, 1, 1, [0], []⟩, ⟨2, 1, 1, [0], []⟩] : List TestResultB).map TestResultB.id) :=
  calculate_flat_sorted_results cfgW7 journalW7 [⟨1, 1, 1, [0], []⟩, ⟨2, 1, 1, [0], []⟩]
    (by decide)

/-! ## Claim C3 -/

theorem selectLoop_invariant (rand : Nat → Nat) (len sel : Nat) (hlen : 0 < len) :
    ∀ (fuel k : Nat) (indices out : List Nat) (k' : Nat),
      indices.Nodup → (∀ x ∈ indices, x < len) → indices.length ≤ sel →
      selectLoop rand len sel fuel k indices = some (out, k') →
      out.Nodup ∧ (∀ x ∈ out, x < len) ∧ out.length = sel := by
  intro fuel
  induction fuel with
  | zero =>
    intro k indices out k' hnd hb hle h
    rw [selectLoop] at h
    by_cases hc : indices.length < sel
    · rw [if_pos hc] at h
      exact absurd h (by simp)
    · rw [if_neg hc] at h
      have hp := Option.some_inj.mp h
      rw [Prod.mk.injEq] at hp
      obtain ⟨rfl, rfl⟩ := hp
      exact ⟨hnd, hb, le_antisymm hle (not_lt.mp hc)⟩
  | succ f ih =>
    intro k indices out k' hnd hb hle h
    rw [selectLoop] at h
    by_cases hc : indices.length < sel
    · rw [if_pos hc] at h
      dsimp only [] at h
      rw [if_neg (Nat.pos_iff_ne_zero.mp hlen)] at h
      cases hct : indices.contains (rand k % len) with
      | true =>
        rw [hct] at h
        simp only [if_true] at h
        exact ih (k + 1) indices out k' hnd hb hle h
      | false =>
        rw [hct] at h
        simp only [Bool.false_eq_true, if_false] at h
        have hnotmem : (rand k % len) ∉ indices := by simp at hct; exact hct
        refine ih (k + 1) _ out k' ?_ ?_ ?_ h
        · exact hnd.append (List.nodup_singleton _)
            (fun a ha hb' => hnotmem (List.mem_singleton.mp hb' ▸ ha))
        · intro x hx
          rcases List.mem_append.mp hx with hx' | hx'
          · exact hb x hx'
          · rw [List.mem_singleton.mp hx']
            exact Nat.mod_lt _ hlen
        · rw [List.length_append, List.length_singleton]
          omega
    · rw [if_neg hc] at h
      have hp := Option.some_inj.mp h
      rw [Prod.mk.injEq] at hp
      obtain ⟨rfl, rfl⟩ := hp
      exact ⟨hnd, hb, le_antisymm hle (not_lt.mp hc)⟩

theorem selectLoop_stuck (rand : Nat → Nat) (len sel : Nat) (hlen : 0 < len)
    (hgt : len < sel) :
    ∀ (fuel k : Nat) (indices : List Nat), indices.Nodup → (∀ x ∈ indices, x < len) →
      selectLoop rand len sel fuel k indices = none := by
  intro fuel
  induction fuel with
  | zero =>
    intro k indices hnd hb
    have hle : indices.length ≤ len := by
      have hsub : indices ⊆ List.range len := fun x hx => List.mem_range.mpr (hb x hx)
      simpa using (hnd.subperm hsub).length_le
    rw [selectLoop, if_pos (lt_of_le_of_lt hle hgt)]
  | succ f ih =>
    intro k indices hnd hb
    have hle : indices.length ≤ len := by
      have hsub : indices ⊆ List.range len := fun x hx => List.mem_range.mpr (hb x hx)
      simpa using (hnd.subperm hsub).length_le
    rw [selectLoop, if_pos (lt_of_le_of_lt hle hgt)]
    dsimp only []
    rw [if_neg (Nat.pos_iff_ne_zero.mp hlen)]
    cases hct : indices.contains (rand k % len) with
    | true =>
      simp only [if_true]
      exact ih (k + 1) indices hnd hb
    | false =>
      simp only [Bool.false_eq_true, if_false]
      have hnotmem : (rand k % len) ∉ indices := by simp at hct; exact hct
      refine ih (k + 1) _ ?_ ?_
      · exact hnd.append (List.nodup_singleton _)
          (fun a ha hb' => hnotmem (List.mem_singleton.mp hb' ▸ ha))
      · intro x hx
        rcases List.mem_append.mp hx with hx' | hx'
        · exact hb x hx'
        · rw [List.mem_singleton.mp hx']
          exact Nat.mod_lt _ hlen

theorem allSingleTestsOf_id (course : ConfigFile) :
    ∀ (id : Nat) (e : SetElement),
      objGet (allSingleTestsOf course) id = some e → e.elemId = id := by
  rw [allSingleTestsOf]
  suffices h : ∀ (ts : List FTest) (m : List (Nat × SetElement)),
      (∀ id e, objGet m id = some e → e.elemId = id) →
      ∀ id e, objGet (ts.foldl (fun m' t => objSet m' t.id (SetElement.test t)) m) id = some e →
        e.elemId = id by
    exact h course.tests [] (by intro id e h'; simp [objGet, List.find?] at h')
  intro ts
  induction ts with
  | nil => intro m hm; exact hm
  | cons t rest ih =>
    intro m hm
    rw [List.foldl_cons]
    apply ih
    intro id e hget
    rcases objGet_objSet_cases m t.id id (SetElement.test t) e hget with ⟨heq, hv⟩ | hmem
    · rw [hv, heq]
      rfl
    · exact hm id e hmem

/-- C3 amended: in fresh mode, for a group with a nonzero `select` not
exceeding the group size, the expansion draws exactly `select` tests at
distinct indices of `group.tests`, each resolved from the group's declared
test ids; the drawn tests are distinct whenever the group's test list has no
duplicate ids (duplicates in `group.tests` break distinctness — see the
counterexample).  When `select` exceeds the size of a non-empty group the
draw loop never terminates and no expansion is produced. -/
theorem fresh_group_expansion :
    (∀ (course : ConfigFile) (g : FGroup) (rand : Nat → Nat) (fuel k sel : Nat)
        (temp : List (Option SetElement)) (k' : Nat),
      g.select = some sel → 0 < sel → sel ≤ g.tests.length → g.tests.Nodup →
      (∀ id ∈ g.tests, (objGet (allSingleTestsOf course) id).isSome = true) →
      groupTemp (allSingleTestsOf course) [] false g rand fuel k = some (temp, k') →
      temp.length = sel ∧ temp.Nodup ∧
        ∀ x ∈ temp, ∃ id ∈ g.tests, x = objGet (allSingleTestsOf course) id) ∧
    (∀ (allST : List (Nat × SetElement)) (g : FGroup) (rand : Nat → Nat) (fuel k sel : Nat),
      g.select = some sel → g.tests.length < sel → g.tests ≠ [] →
      groupTemp allST [] false g rand fuel k = none) := by
  constructor
  · intro course g rand fuel k sel temp k' hsel hpos hle hnd hres h
    rw [groupTemp] at h
    simp only [Bool.false_eq_true, if_false] at h
    rw [hsel] at h
    simp only [Option.getD_some] at h
    rw [if_pos (Nat.pos_iff_ne_zero.mp hpos)] at h
    have hlen : 0 < g.tests.length := lt_of_lt_of_le hpos hle
    cases hsl : selectLoop rand g.tests.length sel fuel k [] with
    | none => rw [hsl] at h; simp at h
    | some ik =>
      obtain ⟨indices, k₁⟩ := ik
      rw [hsl] at h
      dsimp only [] at h
      have hp := Option.some_inj.mp h
      rw [Prod.mk.injEq] at hp
      obtain ⟨htemp, rfl⟩ := hp
      subst htemp
      obtain ⟨hndI, hbI, hlenI⟩ := selectLoop_invariant rand g.tests.length sel hlen fuel k
        [] indices k₁ (by simp) (by simp) (by simp) hsl
      refine ⟨by simp [hlenI], ?_, ?_⟩
      · refine List.Nodup.map_on ?_ hndI
        intro ix hix iy hiy hfeq
        have hxlt := hbI ix hix
        have hylt := hbI iy hiy
        have hgx : g.tests.get? ix = some (g.tests.get ⟨ix, hxlt⟩) := List.get?_eq_get hxlt
        have hgy : g.tests.get? iy = some (g.tests.get ⟨iy, hylt⟩) := List.get?_eq_get hylt
        simp only [hgx, hgy] at hfeq
        obtain ⟨ex, hex⟩ := Option.isSome_iff_exists.mp (hres _ (List.get_mem g.tests ix hxlt))
        obtain ⟨ey, hey⟩ := Option.isSome_iff_exists.mp (hres _ (List.get_mem g.tests iy hylt))
        have hidxy : g.tests.get ⟨ix, hxlt⟩ = g.tests.get ⟨iy, hylt⟩ := by
          have h1 := allSingleTestsOf_id course _ _ hex
          have h2 := allSingleTestsOf_id course _ _ hey
          rw [hex, hey] at hfeq
          rw [← h1, ← h2, Option.some_inj.mp hfeq]
        apply List.getElem?_inj hxlt hnd
        rw [← List.get?_eq_getElem?, ← List.get?_eq_getElem?, hgx, hgy, hidxy]
      · intro x hx
        obtain ⟨ix, hix, rfl⟩ := List.mem_map.mp hx
        have hxlt := hbI ix hix
        have hgx : g.tests.get? ix = some (g.tests.get ⟨ix, hxlt⟩) := List.get?_eq_get hxlt
        have hgx' : g.tests[ix]? = some (g.tests.get ⟨ix, hxlt⟩) := by
          rw [← List.get?_eq_getElem?]
          exact hgx
        exact ⟨g.tests.get ⟨ix, hxlt⟩, List.get_mem g.tests ix hxlt, by simp [hgx, hgx']⟩
  · intro allST g rand fuel k sel hsel hgt hne
    rw [groupTemp]
    simp only [Bool.false_eq_true, if_false]
    rw [hsel]
    simp only [Option.getD_some]
    rw [if_pos (by omega : sel ≠ 0)]
    have hlen : 0 < g.tests.length := List.length_pos.mpr hne
    rw [selectLoop_stuck rand g.tests.length sel hlen hgt fuel k [] (by simp) (by simp)]

/-- C3 counterexample: the group `{tests: [1, 1], select: 2}` (test id 1
listed twice) expands to TWO copies of the same test — the drawn indices are
distinct but the drawn tests are not, so the expansion is not `select`
distinct tests. -/
theorem fresh_group_duplicate_counterexample :
    (createJournalStructure cEx3 none (fun k => k) 10).map
        (fun s => s.sets.map (fun t => t.elements))
      = some [[.test tEx1, .test tEx1]] ∧
    ¬ ([SetElement.test tEx1, SetElement.test tEx1].Nodup) := by
  refine ⟨by decide, by decide⟩

/-- C3 amended witness: the group `{tests: [1, 2, 3], select: 2}` over three
distinct declared tests expands (with the identity random stream) to two
distinct tests drawn from the group. -/
theorem fresh_group_expansion_witness :
    ([some (SetElement.test ⟨1, []⟩), some (SetElement.test ⟨2, []⟩)] :
        List (Option SetElement)).length = 2 ∧
    ([some (SetElement.test ⟨1, []⟩), some (SetElement.test ⟨2, []⟩)] :
        List (Option SetElement)).Nodup ∧
    ∀ x ∈ ([some (SetElement.test ⟨1, []⟩), some (SetElement.test ⟨2, []⟩)] :
        List (Option SetElement)), ∃ id ∈ gW3.tests, x = objGet (allSingleTestsOf cW3) id :=
  fresh_group_expansion.1 cW3 gW3 (fun k => k) 10 0 2
    [some (SetElement.test ⟨1, []⟩), some (SetElement.test ⟨2, []⟩)] 2
    rfl (by decide) (by decide) (by decide) (by decide) (by decide)

end SelfAssessment
